import Mathlib

/-!
Verification development for the yank-cli download pipeline
(src/cli/yank-cli.py).  Strings are modelled as `List Char`, file
contents as `List Nat`, the filesystem as an association list from
paths to contents, and each network endpoint as an explicit function
supplied by the environment.
-/

namespace Yank

/-! ## Sanitizer (normalize_filename, lines 32 and 41-44) -/

/-- The characters matched by FILENAME_SANITIZATION_PATTERN,
    the regex [<>:\"\/\\|?*\|\'] (the second | is redundant). -/
def forbiddenChars : List Char :=
  ['<', '>', ':', '"', '/', '\\', '|', '?', '*', '\'']

/-- Whitespace in the sense of Python str.split / str.strip
    (ASCII fragment: space, tab, newline, carriage return,
    vertical tab, form feed). -/
def isSpaceChar (c : Char) : Bool :=
  c = ' ' || c = '\t' || c = '\n' || c = '\r' || c = '\x0b' || c = '\x0c'

/-- re.sub(FILENAME_SANITIZATION_PATTERN, '', name): delete every
    forbidden character. -/
def removeForbidden (s : List Char) : List Char :=
  s.filter (fun c => !(forbiddenChars.contains c))

/-- Python str.split() with no argument: split on runs of whitespace,
    producing no empty tokens.  `acc` holds the current token reversed. -/
def splitAux : List Char → List Char → List (List Char)
  | [], acc => if acc.isEmpty then [] else [acc.reverse]
  | c :: cs, acc =>
    if isSpaceChar c then
      if acc.isEmpty then splitAux cs [] else acc.reverse :: splitAux cs []
    else splitAux cs (c :: acc)

def pySplit (s : List Char) : List (List Char) :=
  splitAux s []

/-- ' '.join(tokens). -/
def joinSpace : List (List Char) → List Char
  | [] => []
  | [t] => t
  | t :: ts => t ++ ' ' :: joinSpace ts

/-- Python str.strip(): drop leading and trailing whitespace. -/
def pyStrip (s : List Char) : List Char :=
  ((s.dropWhile isSpaceChar).reverse.dropWhile isSpaceChar).reverse

/-- normalize_filename (lines 41-44): delete forbidden characters,
    collapse whitespace runs to single spaces via split + join,
    then strip. -/
def normalize_filename (s : List Char) : List Char :=
  pyStrip (joinSpace (pySplit (removeForbidden s)))

/-- True when some two adjacent characters are both whitespace. -/
def hasDoubleSpace : List Char → Bool
  | a :: b :: rest => (isSpaceChar a && isSpaceChar b) || hasDoubleSpace (b :: rest)
  | _ => false

/-- The first character, when present, is not whitespace. -/
def headNotSpace : List Char → Bool
  | [] => true
  | c :: _ => !isSpaceChar c

/-- The last character, when present, is not whitespace. -/
def lastNotSpace (l : List Char) : Bool :=
  headNotSpace l.reverse

/-- A token list is good when every token is nonempty and whitespace-free,
    as `pySplit` guarantees. -/
def GoodTokens (ts : List (List Char)) : Prop :=
  ∀ t ∈ ts, t ≠ [] ∧ ∀ c ∈ t, isSpaceChar c = false

/-! ## Filesystem and network model

The filesystem is an association list from paths to file contents (a later
write shadows an earlier one, like opening the file in "wb" mode).  Each
network endpoint is a function supplied by the environment; where the code
can observe different answers on different attempts the function is indexed
by the attempt number.  requests' raise_for_status raises exactly for
status codes in [400, 600). -/

inductive HttpResult where
  | err
  | resp (status : Nat) (body : List Nat)
deriving DecidableEq

def raisesForStatus (status : Nat) : Bool :=
  400 ≤ status && status < 600

abbrev FS := List (List Char × List Nat)

def fsGet : FS → List Char → Option (List Nat)
  | [], _ => none
  | (p, v) :: rest, q => if p = q then some v else fsGet rest q

def fsExists (fs : FS) (p : List Char) : Bool :=
  (fsGet fs p).isSome

def fsWrite (fs : FS) (p : List Char) (v : List Nat) : FS :=
  (p, v) :: fs

/-- os.path.join(dir, name) for a relative name. -/
def joinPath (dir name : List Char) : List Char :=
  dir ++ '/' :: name

def mp3Name (trackname : List Char) : List Char :=
  trackname ++ ['.', 'm', 'p', '3']

/-- The TrackMetadata dataclass (lines 34-39). -/
structure TrackMetadata where
  title : List Char
  artists : List Char
  album : List Char
  tid : List Char
deriving DecidableEq

inductive PersistResult where
  | raised
  | oserror
  | ret (b : Bool)
deriving DecidableEq

/-- persist_audio_file (lines 148-160): re-sanitize the track name, skip when
    the target file exists (returning False with no network call), otherwise
    GET the delivery endpoint; raise_for_status raises a RequestException
    (`raised`) for 4xx/5xx, a 200 opens and writes the file and returns
    True, and any other non-raising status returns False.  The local
    open/write (lines 157-158) can itself fail: `writeOk path` says whether
    writing that path succeeds, and a failing write raises an OSError
    (`oserror`), which is not a RequestException.  The failed write is
    modelled as leaving the filesystem unchanged (the source can leave a
    truncated file, the known gap of spec section 9, on which no claim here
    depends).  Result: (outcome, filesystem, delivery-endpoint calls). -/
def persist_audio_file (delivery : List Char → HttpResult)
    (writeOk : List Char → Bool)
    (trackname tid outpath : List Char) (fs : FS) : PersistResult × FS × Nat :=
  let tn := normalize_filename trackname
  let path := joinPath outpath (mp3Name tn)
  if fsExists fs path then (.ret false, fs, 0)
  else
    match delivery tid with
    | .err => (.raised, fs, 1)
    | .resp status body =>
      if raisesForStatus status then (.raised, fs, 1)
      else if status = 200 then
        if writeOk path then (.ret true, fsWrite fs path body, 1)
        else (.oserror, fs, 1)
      else (.ret false, fs, 1)

inductive Outcome where
  | Written
  | Skipped
  | Failed
deriving DecidableEq

/-- The result of download_track: a printed per-item outcome, or an
    uncaught OSError from the local file write, which download_track's
    `except requests.RequestException` (line 140) does not catch and which
    therefore propagates out of the function. -/
inductive DownloadResult where
  | done (o : Outcome)
  | oserror
deriving DecidableEq

/-- The retry loop of download_track (lines 132-146).  `attempt` is the
    Python loop index, `rem` the number of loop iterations left and `calls`
    the delivery-endpoint calls so far.  A True from persist_audio_file is
    reported Written, a False is reported Skipped, a RequestException is
    retried while iterations remain, else reported Failed, and an OSError
    from the file write escapes the except clause at once. -/
def download_track_go (env : Nat → List Char → HttpResult)
    (writeOk : List Char → Bool) (trackname tid outpath : List Char) :
    Nat → Nat → FS → Nat → DownloadResult × FS × Nat
  | _, 0, fs, calls => (.done .Failed, fs, calls)
  | attempt, rem + 1, fs, calls =>
    match persist_audio_file (env attempt) writeOk trackname tid outpath fs with
    | (.ret true, fs2, n) => (.done .Written, fs2, calls + n)
    | (.ret false, fs2, n) => (.done .Skipped, fs2, calls + n)
    | (.oserror, fs2, n) => (.oserror, fs2, calls + n)
    | (.raised, fs2, n) =>
      if rem = 0 then (.done .Failed, fs2, calls + n)
      else download_track_go env writeOk trackname tid outpath (attempt + 1) rem fs2 (calls + n)

/-- download_track (lines 128-146); the track name handed to
    persist_audio_file is `title + " - " + artists`.  Faithful for
    max_retries ≥ 1 (the Python loop body is entered at least once). -/
def download_track (env : Nat → List Char → HttpResult)
    (writeOk : List Char → Bool) (track : TrackMetadata)
    (outpath : List Char) (max_retries : Nat) (fs : FS) : DownloadResult × FS × Nat :=
  download_track_go env writeOk (track.title ++ [' ', '-', ' '] ++ track.artists)
    track.tid outpath 0 max_retries fs 0

/-- What the downloading loop of main leaves behind: the per-item outcomes
    reported for the items that completed, whether an uncaught OSError
    terminated the run early, and the final filesystem and delivery-call
    count. -/
structure BatchResult where
  outcomes : List Outcome
  aborted : Bool
  fs : FS
  calls : Nat
deriving DecidableEq

/-- The downloading loop of main (lines 187-188, 209-210): each selected
    track is handed to download_track in order and the returned flag is
    ignored; but an OSError escaping download_track is uncaught in main too
    and terminates the whole run, so no later item is processed.  `env k`
    is the delivery environment seen by the k-th item. -/
def runBatch (env : Nat → Nat → List Char → HttpResult)
    (writeOk : List Char → Bool) :
    List TrackMetadata → List Char → FS → BatchResult
  | [], _, fs => ⟨[], false, fs, 0⟩
  | t :: ts, outpath, fs =>
    match download_track (env 0) writeOk t outpath 3 fs with
    | (.done o, fs2, n) =>
      let rest := runBatch (fun k => env (k + 1)) writeOk ts outpath fs2
      ⟨o :: rest.outcomes, rest.aborted, rest.fs, n + rest.calls⟩
    | (.oserror, fs2, n) => ⟨[], true, fs2, n⟩

/-- The JSON body returned by GET /download/{trackId}. -/
structure TrackResponse where
  success : Bool
  payload : List Nat
deriving DecidableEq

inductive FetchResult where
  | err
  | resp (status : Nat) (body : TrackResponse)
deriving DecidableEq

/-- An attempt of the metadata GET fails with a RequestException exactly when
    the transport fails or raise_for_status fires (status 400-599). -/
def fetchAttemptFails : FetchResult → Bool
  | .err => true
  | .resp status _ => raisesForStatus status

/-- The retry loop of fetch_track_metadata (lines 48-59): any non-raising
    HTTP response has its JSON body returned at once — the body's `success`
    field is never consulted here; a RequestException is retried while
    attempts remain.  Result: (returned body, metadata-service calls). -/
def fetch_track_go (env : Nat → FetchResult) :
    Nat → Nat → Nat → Option TrackResponse × Nat
  | _, 0, calls => (none, calls)
  | attempt, rem + 1, calls =>
    match env attempt with
    | .err =>
      if rem = 0 then (none, calls + 1)
      else fetch_track_go env (attempt + 1) rem (calls + 1)
    | .resp status body =>
      if raisesForStatus status then
        if rem = 0 then (none, calls + 1)
        else fetch_track_go env (attempt + 1) rem (calls + 1)
      else (some body, calls + 1)

/-- fetch_track_metadata (lines 46-59), for max_retries ≥ 1. -/
def fetch_track_metadata (env : Nat → FetchResult) (max_retries : Nat) :
    Option TrackResponse × Nat :=
  fetch_track_go env 0 max_retries 0

/-- main's verdict on the fetched metadata (lines 212-215):
    `resp is None or resp.get('success') == False` aborts the run. -/
def metadata_fetch_rejected : Option TrackResponse → Bool
  | none => true
  | some b => !b.success

/-- The pagination loop of fetch_playlist_metadata (lines 103-112): starting
    from offset 0, fetch a page, append its trackList, read nextOffset and
    stop when it is falsy (0).  `pages off` is the (trackList, nextOffset)
    answer of GET /tracklist/playlist?offset=off; fuel bounds the number of
    iterations of the Python `while True` (none when fuel runs out). -/
def fetch_playlist_pages {α : Type} (pages : Nat → List α × Nat) :
    Nat → Nat → List α → Option (List α)
  | 0, _, _ => none
  | fuel + 1, off, acc =>
    let items := (pages off).1
    let nxt := (pages off).2
    if nxt = 0 then some (acc ++ items)
    else fetch_playlist_pages pages fuel nxt (acc ++ items)

def playlist_tracklist {α : Type} (pages : Nat → List α × Nat) (fuel : Nat) :
    Option (List α) :=
  fetch_playlist_pages pages fuel 0 []

/-- A finite run of page responses: following nextOffset from `off` yields
    exactly the pages `Ls`, every nextOffset before the last being nonzero
    and the last being 0 (falsy). -/
def PageChain {α : Type} (pages : Nat → List α × Nat) : Nat → List (List α) → Prop
  | off, [L] => pages off = (L, 0)
  | off, L :: rest => ∃ nxt, pages off = (L, nxt) ∧ nxt ≠ 0 ∧ PageChain pages nxt rest
  | _, [] => False

/-! ## Selection parsing (main, lines 176-181 / 198-203) -/

/-- No two adjacent underscores. -/
def noDoubleUnderscore : List Char → Bool
  | a :: b :: rest => !(a = '_' && b = '_') && noDoubleUnderscore (b :: rest)
  | _ => true

/-- A valid unsigned decimal literal for Python int(): nonempty, first and
    last characters are digits, every character is a digit or an underscore,
    and underscores are never adjacent. -/
def intDigitsOk (s : List Char) : Bool :=
  match s, s.reverse with
  | c :: _, d :: _ =>
    c.isDigit && d.isDigit && s.all (fun x => x.isDigit || x = '_') &&
      noDoubleUnderscore s
  | _, _ => false

def digitsValue (s : List Char) : Nat :=
  s.foldl (fun acc c => if c = '_' then acc else acc * 10 + (c.toNat - 48)) 0

/-- Python int() on an ASCII string: surrounding whitespace is ignored, then
    an optional sign followed by decimal digits (single underscores allowed
    between digits); anything else raises ValueError (none). -/
def pyInt (s : List Char) : Option Int :=
  match pyStrip s with
  | '+' :: rest => if intDigitsOk rest then some (digitsValue rest) else none
  | '-' :: rest => if intDigitsOk rest then some (-(digitsValue rest : Int)) else none
  | t => if intDigitsOk t then some (digitsValue t) else none

/-- The selection step of main (lines 176-181): a blank (whitespace-only)
    input keeps the whole list; otherwise each whitespace-separated token
    goes through int(token) - 1 and the in-range indices select the songs in
    supplied order; a token int() cannot parse is Python's uncaught
    ValueError, modelled as the error case. -/
def select_tracks {α : Type} (songs : List α) (selection : List Char) :
    Except Unit (List α) :=
  if (pyStrip selection).isEmpty then .ok songs
  else
    match (pySplit selection).mapM pyInt with
    | none => .error ()
    | some ns =>
      .ok ((ns.map (fun n => n - 1)).filterMap
        (fun i =>
          if h : 0 ≤ i ∧ i < (songs.length : Int) then
            some (songs.get ⟨i.toNat, by omega⟩)
          else none))

/-- The selection result as the spec describes it: subtract one from each
    parsed integer, drop out-of-range indices, index the item list in the
    supplied order keeping duplicates. -/
def selectionSpec {α : Type} (songs : List α) (ns : List Int) : List α :=
  (ns.map (fun n => n - 1)).filterMap
    (fun i => if 0 ≤ i then songs.get? i.toNat else none)

/-- main's album branch after metadata resolution (lines 176-188): the
    selection step followed by the download loop over the selected songs in
    the directory named after the sanitized album title; a selection parse
    failure is an uncaught ValueError that aborts before any download. -/
def album_download_phase (env : Nat → Nat → List Char → HttpResult)
    (writeOk : List Char → Bool)
    (songs : List TrackMetadata) (selection : List Char)
    (album_name cwd : List Char) (fs : FS) :
    Except Unit BatchResult :=
  match select_tracks songs selection with
  | .error e => .error e
  | .ok sel => .ok (runBatch env writeOk sel (joinPath cwd (normalize_filename album_name)) fs)

/-- A concrete three-page source for the C3 witness. -/
def demoPages : Nat → List Nat × Nat := fun off =>
  if off = 0 then (List.range 100, 100)
  else if off = 100 then ((List.range 100).map (· + 100), 200)
  else (List.range 20, 0)

example : normalize_filename ['a', '/', 'b', ' ', ' ', 'c'] = ['a', 'b', ' ', 'c'] := by decide

example : normalize_filename [' ', 'x', '\t', '\t', 'y', ' '] = ['x', ' ', 'y'] := by decide

/-! ## Sanitizer lemmas -/

theorem splitAux_good (s : List Char) :
    ∀ acc, (∀ c ∈ acc, isSpaceChar c = false) → GoodTokens (splitAux s acc) := by
  induction s with
  | nil =>
    intro acc hacc t ht
    cases acc with
    | nil => simp [splitAux] at ht
    | cons a as =>
      simp [splitAux] at ht
      subst ht
      refine ⟨by simp, ?_⟩
      intro c hc
      refine hacc c ?_
      simp at hc ⊢
      tauto
  | cons c cs ih =>
    intro acc hacc t ht
    by_cases hc : isSpaceChar c = true
    · cases acc with
      | nil =>
        simp only [splitAux, hc, if_true, List.isEmpty_nil] at ht
        exact ih [] (by simp) t ht
      | cons a as =>
        simp only [splitAux, hc, if_true, List.isEmpty_cons, if_false, Bool.false_eq_true,
          List.mem_cons] at ht
        rcases ht with ht | ht
        · subst ht
          refine ⟨by simp, ?_⟩
          intro d hd
          exact hacc d (List.mem_reverse.mp hd)
        · exact ih [] (by simp) t ht
    · simp only [splitAux, hc, if_false] at ht
      refine ih (c :: acc) ?_ t ht
      intro d hd
      rcases List.mem_cons.mp hd with hd | hd
      · subst hd; simpa using hc
      · exact hacc d hd

theorem pySplit_good (s : List Char) : GoodTokens (pySplit s) :=
  splitAux_good s [] (by simp)

theorem splitAux_subset (s : List Char) :
    ∀ acc t c, t ∈ splitAux s acc → c ∈ t → c ∈ s ∨ c ∈ acc := by
  induction s with
  | nil =>
    intro acc t c ht hc
    cases acc with
    | nil => simp [splitAux] at ht
    | cons a as =>
      simp [splitAux] at ht
      subst ht
      right
      simp at hc ⊢
      tauto
  | cons d cs ih =>
    intro acc t c ht hc
    by_cases hd : isSpaceChar d = true
    · cases acc with
      | nil =>
        simp only [splitAux, hd, if_true, List.isEmpty_nil] at ht
        rcases ih [] t c ht hc with h | h
        · exact Or.inl (List.mem_cons_of_mem d h)
        · simp at h
      | cons a as =>
        simp only [splitAux, hd, if_true, List.isEmpty_cons, if_false, Bool.false_eq_true,
          List.mem_cons] at ht
        rcases ht with ht | ht
        · subst ht
          right
          exact List.mem_reverse.mp hc
        · rcases ih [] t c ht hc with h | h
          · exact Or.inl (List.mem_cons_of_mem d h)
          · simp at h
    · simp only [splitAux, hd, if_false] at ht
      rcases ih (d :: acc) t c ht hc with h | h
      · exact Or.inl (List.mem_cons_of_mem d h)
      · rcases List.mem_cons.mp h with h | h
        · exact Or.inl (h ▸ List.mem_cons_self d cs)
        · exact Or.inr h

theorem pySplit_subset (s : List Char) {t : List Char} {c : Char}
    (ht : t ∈ pySplit s) (hc : c ∈ t) : c ∈ s := by
  rcases splitAux_subset s [] t c ht hc with h | h
  · exact h
  · simp at h

theorem splitAux_append (t : List Char) (h : ∀ c ∈ t, isSpaceChar c = false) :
    ∀ rest acc, splitAux (t ++ rest) acc = splitAux rest (t.reverse ++ acc) := by
  induction t with
  | nil => intro rest acc; simp
  | cons a t ih =>
    intro rest acc
    have ha : isSpaceChar a = false := h a (List.mem_cons_self a t)
    simp only [List.cons_append, splitAux, ha, Bool.false_eq_true, if_false, List.append_eq]
    rw [ih (fun c hc => h c (List.mem_cons_of_mem a hc)) rest (a :: acc)]
    simp

theorem joinSpace_cons (t : List Char) (ts : List (List Char)) :
    joinSpace (t :: ts) = t ++ (if ts.isEmpty then [] else ' ' :: joinSpace ts) := by
  cases ts with
  | nil => simp [joinSpace]
  | cons t2 ts2 => simp [joinSpace]

theorem pySplit_joinSpace (ts : List (List Char)) (h : GoodTokens ts) :
    pySplit (joinSpace ts) = ts := by
  induction ts with
  | nil => rfl
  | cons t ts ih =>
    obtain ⟨ht, hsf⟩ := h t (List.mem_cons_self t ts)
    cases ts with
    | nil =>
      show splitAux (joinSpace [t]) [] = [t]
      have hjoin : joinSpace [t] = t ++ [] := by simp [joinSpace]
      rw [hjoin, splitAux_append t hsf [] []]
      cases htr : t.reverse with
      | nil => exact absurd (by simpa using htr) ht
      | cons a as =>
        rw [List.append_nil]
        calc splitAux [] (a :: as) = [(a :: as).reverse] := rfl
          _ = [t] := by rw [← htr, List.reverse_reverse]
    | cons t2 ts2 =>
      show splitAux (joinSpace (t :: t2 :: ts2)) [] = t :: t2 :: ts2
      have hjoin : joinSpace (t :: t2 :: ts2) = t ++ ' ' :: joinSpace (t2 :: ts2) := rfl
      rw [hjoin, splitAux_append t hsf _ []]
      cases htr : t.reverse with
      | nil => exact absurd (by simpa using htr) ht
      | cons a as =>
        rw [List.append_nil]
        have step : splitAux (' ' :: joinSpace (t2 :: ts2)) (a :: as)
            = (a :: as).reverse :: splitAux (joinSpace (t2 :: ts2)) [] := rfl
        rw [step, ← htr, List.reverse_reverse]
        show t :: pySplit (joinSpace (t2 :: ts2)) = t :: t2 :: ts2
        rw [ih (fun u hu => h u (List.mem_cons_of_mem t hu))]

theorem hasDoubleSpace_append (t : List Char) (h : ∀ c ∈ t, isSpaceChar c = false) (l : List Char) :
    hasDoubleSpace (t ++ l) = hasDoubleSpace l := by
  induction t with
  | nil => rfl
  | cons a t ih =>
    have ha : isSpaceChar a = false := h a (List.mem_cons_self a t)
    have ih' := ih (fun c hc => h c (List.mem_cons_of_mem a hc))
    cases t with
    | nil =>
      cases l with
      | nil => rfl
      | cons b r => simp [hasDoubleSpace, ha]
    | cons c t2 =>
      simp only [List.cons_append] at ih' ⊢
      rw [show hasDoubleSpace (a :: c :: (t2 ++ l)) =
          ((isSpaceChar a && isSpaceChar c) || hasDoubleSpace (c :: (t2 ++ l))) from rfl]
      rw [ih', ha]
      simp

theorem joinSpace_ne_nil (t : List Char) (ts : List (List Char)) (ht : t ≠ []) :
    joinSpace (t :: ts) ≠ [] := by
  rw [joinSpace_cons]
  cases t with
  | nil => exact absurd rfl ht
  | cons a as => simp

theorem headNotSpace_joinSpace (ts : List (List Char)) (h : GoodTokens ts) :
    headNotSpace (joinSpace ts) = true := by
  cases ts with
  | nil => rfl
  | cons t ts =>
    obtain ⟨ht, hsf⟩ := h t (List.mem_cons_self t ts)
    rw [joinSpace_cons]
    cases t with
    | nil => exact absurd rfl ht
    | cons a as =>
      have ha : isSpaceChar a = false := hsf a (List.mem_cons_self a as)
      simp [headNotSpace, ha]

theorem headNotSpace_append (a : Char) (l r : List Char) :
    headNotSpace ((a :: l) ++ r) = headNotSpace (a :: l) := rfl

theorem lastNotSpace_joinSpace (ts : List (List Char)) (h : GoodTokens ts) :
    lastNotSpace (joinSpace ts) = true := by
  induction ts with
  | nil => rfl
  | cons t ts ih =>
    obtain ⟨ht, hsf⟩ := h t (List.mem_cons_self t ts)
    cases ts with
    | nil =>
      show headNotSpace (joinSpace [t]).reverse = true
      have hjoin : joinSpace [t] = t := rfl
      rw [hjoin]
      cases htr : t.reverse with
      | nil => rfl
      | cons a as =>
        have ha : a ∈ t := by
          have : a ∈ t.reverse := by rw [htr]; exact List.mem_cons_self a as
          simpa using this
        simp [headNotSpace, hsf a ha]
    | cons t2 ts2 =>
      have hjoin : joinSpace (t :: t2 :: ts2) = t ++ ' ' :: joinSpace (t2 :: ts2) := rfl
      show headNotSpace (joinSpace (t :: t2 :: ts2)).reverse = true
      rw [hjoin]
      have hne : joinSpace (t2 :: ts2) ≠ [] :=
        joinSpace_ne_nil t2 ts2 (h t2 (by simp)).1
      cases hj : joinSpace (t2 :: ts2) with
      | nil => exact absurd hj hne
      | cons b bs =>
        have ihv := ih (fun u hu => h u (List.mem_cons_of_mem t hu))
        rw [hj] at ihv
        show headNotSpace (t ++ ' ' :: b :: bs).reverse = true
        rw [List.reverse_append]
        show headNotSpace ((' ' :: b :: bs).reverse ++ t.reverse) = true
        have : (' ' :: b :: bs).reverse = (b :: bs).reverse ++ [' '] := by simp
        rw [this, List.append_assoc]
        cases hbr : (b :: bs).reverse with
        | nil => simp at hbr
        | cons x xs =>
          have ihv2 : headNotSpace (b :: bs).reverse = true := ihv
          rw [hbr] at ihv2
          exact ihv2

theorem hasDoubleSpace_joinSpace (ts : List (List Char)) (h : GoodTokens ts) :
    hasDoubleSpace (joinSpace ts) = false := by
  induction ts with
  | nil => rfl
  | cons t ts ih =>
    obtain ⟨ht, hsf⟩ := h t (List.mem_cons_self t ts)
    cases ts with
    | nil =>
      show hasDoubleSpace (joinSpace [t]) = false
      have hjoin : joinSpace [t] = t ++ [] := by simp [joinSpace]
      rw [hjoin, hasDoubleSpace_append t hsf]
      rfl
    | cons t2 ts2 =>
      have hjoin : joinSpace (t :: t2 :: ts2) = t ++ ' ' :: joinSpace (t2 :: ts2) := rfl
      rw [hjoin, hasDoubleSpace_append t hsf]
      have hne : joinSpace (t2 :: ts2) ≠ [] :=
        joinSpace_ne_nil t2 ts2 (h t2 (by simp)).1
      have ihv := ih (fun u hu => h u (List.mem_cons_of_mem t hu))
      have hhead := headNotSpace_joinSpace (t2 :: ts2) (fun u hu => h u (List.mem_cons_of_mem t hu))
      cases hj : joinSpace (t2 :: ts2) with
      | nil => exact absurd hj hne
      | cons b bs =>
        rw [hj] at ihv hhead
        have hb : isSpaceChar b = false := by
          simpa [headNotSpace] using hhead
        rw [show hasDoubleSpace (' ' :: b :: bs) =
            ((isSpaceChar ' ' && isSpaceChar b) || hasDoubleSpace (b :: bs)) from rfl]
        rw [hb, ihv]
        simp

theorem mem_joinSpace {c : Char} :
    ∀ ts : List (List Char), c ∈ joinSpace ts → c = ' ' ∨ ∃ t ∈ ts, c ∈ t := by
  intro ts
  induction ts with
  | nil => intro h; simp [joinSpace] at h
  | cons t ts ih =>
    intro hmem
    rw [joinSpace_cons] at hmem
    rcases List.mem_append.mp hmem with h | h
    · exact Or.inr ⟨t, List.mem_cons_self t ts, h⟩
    · cases ts with
      | nil => simp at h
      | cons t2 ts2 =>
        simp only [List.isEmpty_cons, Bool.false_eq_true, if_false, List.mem_cons] at h
        rcases h with h | h
        · exact Or.inl h
        · rcases ih h with h | ⟨u, hu, hcu⟩
          · exact Or.inl h
          · exact Or.inr ⟨u, List.mem_cons_of_mem t hu, hcu⟩

theorem pyStrip_eq_self (l : List Char) (h1 : headNotSpace l = true)
    (h2 : lastNotSpace l = true) : pyStrip l = l := by
  unfold pyStrip
  have hdrop : l.dropWhile isSpaceChar = l := by
    cases l with
    | nil => rfl
    | cons a as =>
      have : isSpaceChar a = false := by simpa [headNotSpace] using h1
      simp [List.dropWhile, this]
  rw [hdrop]
  have hdrop2 : l.reverse.dropWhile isSpaceChar = l.reverse := by
    cases hr : l.reverse with
    | nil => rfl
    | cons a as =>
      unfold lastNotSpace at h2
      rw [hr] at h2
      have : isSpaceChar a = false := by simpa [headNotSpace] using h2
      simp [List.dropWhile, this]
  rw [hdrop2, List.reverse_reverse]

/-- normalize_filename never needs its final strip: the join of the split
    tokens already has no whitespace at either end. -/
theorem normalize_filename_eq (s : List Char) :
    normalize_filename s = joinSpace (pySplit (removeForbidden s)) := by
  unfold normalize_filename
  exact pyStrip_eq_self _
    (headNotSpace_joinSpace _ (pySplit_good _))
    (lastNotSpace_joinSpace _ (pySplit_good _))

theorem mem_normalize_filename (s : List Char) {c : Char}
    (hc : c ∈ normalize_filename s) : c = ' ' ∨ c ∈ removeForbidden s := by
  rw [normalize_filename_eq] at hc
  rcases mem_joinSpace _ hc with h | ⟨t, ht, hct⟩
  · exact Or.inl h
  · exact Or.inr (pySplit_subset _ ht hct)

theorem normalize_filename_no_forbidden (s : List Char) :
    (normalize_filename s).all (fun c => !(forbiddenChars.contains c)) = true := by
  rw [List.all_eq_true]
  intro c hc
  rcases mem_normalize_filename s hc with h | h
  · subst h; decide
  · exact (List.mem_filter.mp h).2

theorem removeForbidden_normalize_filename (s : List Char) :
    removeForbidden (normalize_filename s) = normalize_filename s := by
  unfold removeForbidden
  rw [List.filter_eq_self]
  intro c hc
  have h := normalize_filename_no_forbidden s
  rw [List.all_eq_true] at h
  exact h c hc

/-- C6: for every input string, the sanitizer output contains no character
    from the forbidden set, has no leading or trailing whitespace, and has
    no internal run of two or more whitespace characters. -/
theorem sanitizer_output_clean (s : List Char) :
    (normalize_filename s).all (fun c => !(forbiddenChars.contains c)) = true ∧
    headNotSpace (normalize_filename s) = true ∧
    lastNotSpace (normalize_filename s) = true ∧
    hasDoubleSpace (normalize_filename s) = false := by
  refine ⟨normalize_filename_no_forbidden s, ?_, ?_, ?_⟩ <;> rw [normalize_filename_eq]
  · exact headNotSpace_joinSpace _ (pySplit_good _)
  · exact lastNotSpace_joinSpace _ (pySplit_good _)
  · exact hasDoubleSpace_joinSpace _ (pySplit_good _)

/-- C5: the sanitizer is idempotent. -/
theorem sanitizer_idempotent (s : List Char) :
    normalize_filename (normalize_filename s) = normalize_filename s := by
  conv_lhs => rw [normalize_filename]
  rw [removeForbidden_normalize_filename]
  rw [normalize_filename_eq s]
  rw [pySplit_joinSpace _ (pySplit_good _)]
  exact pyStrip_eq_self _
    (headNotSpace_joinSpace _ (pySplit_good _))
    (lastNotSpace_joinSpace _ (pySplit_good _))


/-! ## Retry executor lemmas -/

theorem fetch_track_go_fail_step (env : Nat → FetchResult) (attempt rem calls : Nat)
    (h : fetchAttemptFails (env attempt) = true) :
    fetch_track_go env attempt (rem + 2) calls
      = fetch_track_go env (attempt + 1) (rem + 1) (calls + 1) := by
  cases he : env attempt with
  | err => simp [fetch_track_go, he]
  | resp s b =>
    have hs : raisesForStatus s = true := by
      rw [he] at h
      simpa [fetchAttemptFails] using h
    simp [fetch_track_go, he, hs]

theorem fetch_track_go_fail_last (env : Nat → FetchResult) (attempt calls : Nat)
    (h : fetchAttemptFails (env attempt) = true) :
    fetch_track_go env attempt 1 calls = (none, calls + 1) := by
  cases he : env attempt with
  | err => simp [fetch_track_go, he]
  | resp s b =>
    have hs : raisesForStatus s = true := by
      rw [he] at h
      simpa [fetchAttemptFails] using h
    simp [fetch_track_go, he, hs]

theorem fetch_track_go_success (env : Nat → FetchResult) (attempt rem calls : Nat)
    (s : Nat) (body : TrackResponse) (h : env attempt = .resp s body)
    (hs : raisesForStatus s = false) :
    fetch_track_go env attempt (rem + 1) calls = (some body, calls + 1) := by
  simp [fetch_track_go, h, hs]

/-- C2: under the 3-attempt retry loop of fetch_track_metadata, an operation
    that fails (RequestException) on the first two attempts and succeeds on
    the third returns that third body after exactly 3 service calls, and an
    operation that fails on all three attempts reports failure (None) after
    exactly 3 calls — the service is never called a 4th time. -/
theorem retry_budget_three (env : Nat → FetchResult)
    (h0 : fetchAttemptFails (env 0) = true)
    (h1 : fetchAttemptFails (env 1) = true) :
    (∀ s body, env 2 = .resp s body → raisesForStatus s = false →
      fetch_track_metadata env 3 = (some body, 3)) ∧
    (fetchAttemptFails (env 2) = true → fetch_track_metadata env 3 = (none, 3)) := by
  have step01 : fetch_track_go env 0 3 0 = fetch_track_go env 1 2 1 :=
    fetch_track_go_fail_step env 0 1 0 h0
  have step12 : fetch_track_go env 1 2 1 = fetch_track_go env 2 1 2 :=
    fetch_track_go_fail_step env 1 0 1 h1
  constructor
  · intro s body h2 hs
    show fetch_track_go env 0 3 0 = (some body, 3)
    rw [step01, step12]
    exact fetch_track_go_success env 2 0 2 s body h2 hs
  · intro h2
    show fetch_track_go env 0 3 0 = (none, 3)
    rw [step01, step12]
    exact fetch_track_go_fail_last env 2 2 h2

/-- Witness for C2: transport errors on the first two attempts, a 200 on the
    third. -/
theorem retry_budget_three_witness :
    fetch_track_metadata (fun n => if n < 2 then .err else .resp 200 ⟨true, []⟩) 3
      = (some ⟨true, []⟩, 3) :=
  (retry_budget_three (fun n => if n < 2 then .err else .resp 200 ⟨true, []⟩)
    (by decide) (by decide)).1 200 ⟨true, []⟩ rfl (by decide)

/-! ## Pagination lemmas -/

theorem pageChain_fetch {α : Type} (pages : Nat → List α × Nat) :
    ∀ (Ls : List (List α)) (off : Nat) (acc : List α), PageChain pages off Ls →
      fetch_playlist_pages pages Ls.length off acc = some (acc ++ Ls.flatten) := by
  intro Ls
  induction Ls with
  | nil =>
    intro off acc h
    exact absurd h (fun hf => hf)
  | cons L rest ih =>
    intro off acc h
    cases rest with
    | nil =>
      have hp : pages off = (L, 0) := h
      simp [fetch_playlist_pages, hp]
    | cons L2 rest2 =>
      have h2 : ∃ nxt, pages off = (L, nxt) ∧ nxt ≠ 0 ∧
          PageChain pages nxt (L2 :: rest2) := h
      obtain ⟨nxt, hp, hnz, hchain⟩ := h2
      show fetch_playlist_pages pages ((L2 :: rest2).length + 1) off acc
        = some (acc ++ (L :: L2 :: rest2).flatten)
      rw [show fetch_playlist_pages pages ((L2 :: rest2).length + 1) off acc
          = if (pages off).2 = 0 then some (acc ++ (pages off).1)
            else fetch_playlist_pages pages (L2 :: rest2).length (pages off).2
              (acc ++ (pages off).1) from rfl]
      rw [hp]
      simp only [hnz, if_false]
      rw [ih nxt (acc ++ L) hchain]
      simp

/-- C3: playlist resolution starts at offset 0, follows nextOffset, stops
    exactly when nextOffset is falsy, and returns the pages concatenated in
    fetch order; in particular pages of sizes 100, 100, 20 with a falsy
    offset on the third response resolve to exactly 220 items in order. -/
theorem playlist_pagination_correct {α : Type} (pages : Nat → List α × Nat)
    (Ls : List (List α)) (h : PageChain pages 0 Ls) :
    playlist_tracklist pages Ls.length = some Ls.flatten ∧
    (∀ L1 L2 L3, Ls = [L1, L2, L3] →
      L1.length = 100 → L2.length = 100 → L3.length = 20 →
      playlist_tracklist pages 3 = some (L1 ++ L2 ++ L3) ∧
      (L1 ++ L2 ++ L3).length = 220) := by
  constructor
  · have hf := pageChain_fetch pages Ls 0 [] h
    simpa [playlist_tracklist] using hf
  · intro L1 L2 L3 hLs h1 h2 h3
    subst hLs
    have hf := pageChain_fetch pages [L1, L2, L3] 0 [] h
    constructor
    · simpa [playlist_tracklist, List.append_assoc] using hf
    · simp [h1, h2, h3]

/-- Witness for C3: the three-page source resolves to 220 items. -/
theorem playlist_pagination_correct_witness :
    playlist_tracklist demoPages 3
      = some (List.range 100 ++ (List.range 100).map (· + 100) ++ List.range 20) ∧
    (List.range 100 ++ (List.range 100).map (· + 100) ++ List.range 20).length = 220 :=
  (playlist_pagination_correct demoPages
      [List.range 100, (List.range 100).map (· + 100), List.range 20]
      (show ∃ nxt, demoPages 0 = (List.range 100, nxt) ∧ nxt ≠ 0 ∧
          PageChain demoPages nxt [(List.range 100).map (· + 100), List.range 20] from
        ⟨100, rfl, by decide,
          show ∃ nxt, demoPages 100 = ((List.range 100).map (· + 100), nxt) ∧ nxt ≠ 0 ∧
              PageChain demoPages nxt [List.range 20] from
            ⟨200, rfl, by decide, rfl⟩⟩)).2
    (List.range 100) ((List.range 100).map (· + 100)) (List.range 20) rfl
    (by simp) (by simp) (by simp)

/-! ## Persistence guard lemmas -/

/-- C1: when a file with the exact sanitized name
    sanitize(title + " - " + artists) + ".mp3" already exists under the
    output directory, persist_audio_file returns False (reported Skipped)
    with zero delivery-endpoint calls and an unchanged filesystem, and
    download_track reports Skipped with zero calls likewise. -/
theorem persist_skips_existing_file (delivery : List Char → HttpResult)
    (env : Nat → List Char → HttpResult) (writeOk : List Char → Bool)
    (track : TrackMetadata) (outpath : List Char) (fs : FS)
    (hex : fsExists fs (joinPath outpath (mp3Name (normalize_filename
      (track.title ++ [' ', '-', ' '] ++ track.artists)))) = true) :
    persist_audio_file delivery writeOk (track.title ++ [' ', '-', ' '] ++ track.artists)
      track.tid outpath fs = (.ret false, fs, 0) ∧
    download_track env writeOk track outpath 3 fs = (.done .Skipped, fs, 0) := by
  have hp : ∀ (d : List Char → HttpResult) (w : List Char → Bool),
      persist_audio_file d w (track.title ++ [' ', '-', ' '] ++ track.artists)
        track.tid outpath fs = (.ret false, fs, 0) := by
    intro d w
    unfold persist_audio_file
    simp only [hex]
    rfl
  refine ⟨hp delivery writeOk, ?_⟩
  show download_track_go env writeOk (track.title ++ [' ', '-', ' '] ++ track.artists)
    track.tid outpath 0 3 fs 0 = (.done .Skipped, fs, 0)
  rw [show (3 : Nat) = 2 + 1 from rfl]
  unfold download_track_go
  rw [hp (env 0) writeOk]

/-- Witness for C1: the file "t - a.mp3" is pre-created under "o". -/
theorem persist_skips_existing_file_witness :
    download_track (fun _ _ => .err) (fun _ => true) ⟨['t'], ['a'], ['b'], ['i']⟩ ['o'] 3
      [(joinPath ['o'] (mp3Name ['t', ' ', '-', ' ', 'a']), [9])]
      = (.done .Skipped, [(joinPath ['o'] (mp3Name ['t', ' ', '-', ' ', 'a']), [9])], 0) :=
  (persist_skips_existing_file (fun _ => .err) (fun _ _ => .err) (fun _ => true)
    ⟨['t'], ['a'], ['b'], ['i']⟩ ['o'] _ (by decide)).2

theorem persist_raised_eq (delivery : List Char → HttpResult)
    (writeOk : List Char → Bool) (tname tid outpath : List Char) (fs : FS)
    (h : (persist_audio_file delivery writeOk tname tid outpath fs).1 = .raised) :
    persist_audio_file delivery writeOk tname tid outpath fs = (.raised, fs, 1) := by
  unfold persist_audio_file at h ⊢
  by_cases hex : fsExists fs (joinPath outpath (mp3Name (normalize_filename tname))) = true
  · simp [hex] at h
  · cases hd : delivery tid with
    | err => simp [hex, hd]
    | resp s b =>
      by_cases hs : raisesForStatus s = true
      · simp [hex, hd, hs]
      · by_cases h200 : s = 200
        · subst h200
          by_cases hw : writeOk (joinPath outpath (mp3Name (normalize_filename tname))) = true
          · simp [hex, hd, (by decide : raisesForStatus 200 = false), hw] at h
          · simp [hex, hd, (by decide : raisesForStatus 200 = false), hw] at h
        · simp [hex, hd, hs, h200] at h

theorem download_track_go_failed_fs (env : Nat → List Char → HttpResult)
    (writeOk : List Char → Bool) (tname tid outpath : List Char) :
    ∀ (rem attempt : Nat) (fs : FS) (calls : Nat),
      (download_track_go env writeOk tname tid outpath attempt rem fs calls).1
        = .done .Failed →
      (download_track_go env writeOk tname tid outpath attempt rem fs calls).2.1 = fs := by
  intro rem
  induction rem with
  | zero => intro attempt fs calls _; rfl
  | succ rem ih =>
    intro attempt fs calls h
    have e : download_track_go env writeOk tname tid outpath attempt (rem + 1) fs calls
        = match persist_audio_file (env attempt) writeOk tname tid outpath fs with
          | (.ret true, fs2, n) => (.done .Written, fs2, calls + n)
          | (.ret false, fs2, n) => (.done .Skipped, fs2, calls + n)
          | (.oserror, fs2, n) => (.oserror, fs2, calls + n)
          | (.raised, fs2, n) =>
            if rem = 0 then (.done .Failed, fs2, calls + n)
            else download_track_go env writeOk tname tid outpath (attempt + 1) rem fs2
              (calls + n) :=
      rfl
    rcases hp : persist_audio_file (env attempt) writeOk tname tid outpath fs with ⟨pr, fs2, n⟩
    have hfs2 : pr = .raised → fs2 = fs := by
      intro hpr
      have := persist_raised_eq (env attempt) writeOk tname tid outpath fs (by rw [hp, hpr])
      rw [hp, hpr] at this
      exact (Prod.mk.injEq _ _ _ _).mp ((Prod.mk.injEq _ _ _ _).mp this).2 |>.1
    rw [e, hp] at h ⊢
    cases pr with
    | ret b =>
      cases b
      · simp at h
      · simp at h
    | oserror => simp at h
    | raised =>
      have hf : fs2 = fs := hfs2 rfl
      by_cases hrem : rem = 0
      · simp [hrem, hf]
      · simp only [hrem, if_false] at h ⊢
        rw [ih (attempt + 1) fs2 (calls + n) h, hf]

theorem runBatch_length_of_not_aborted (env : Nat → Nat → List Char → HttpResult)
    (writeOk : List Char → Bool) (tracks : List TrackMetadata)
    (outpath : List Char) (fs : FS)
    (h : (runBatch env writeOk tracks outpath fs).aborted = false) :
    (runBatch env writeOk tracks outpath fs).outcomes.length = tracks.length := by
  induction tracks generalizing env fs with
  | nil => rfl
  | cons t ts ih =>
    have e : runBatch env writeOk (t :: ts) outpath fs
        = match download_track (env 0) writeOk t outpath 3 fs with
          | (.done o, fs2, n) =>
            let rest := runBatch (fun k => env (k + 1)) writeOk ts outpath fs2
            ⟨o :: rest.outcomes, rest.aborted, rest.fs, n + rest.calls⟩
          | (.oserror, fs2, n) => ⟨[], true, fs2, n⟩ := rfl
    rcases hd : download_track (env 0) writeOk t outpath 3 fs with ⟨dr, fs2, n⟩
    rw [e, hd] at h ⊢
    cases dr with
    | done o =>
      simp only [List.length_cons]
      rw [ih (fun k => env (k + 1)) fs2 h]
    | oserror => simp at h

/-- C7 fails as stated: a local file-write failure is not a
    RequestException, escapes download_track and main's loop, and aborts
    the whole batch — with two selected items and a failing write on the
    first, no item outcome is reported and the second item is never
    processed. -/
theorem write_failure_aborts_batch_counterexample :
    (runBatch (fun _ _ _ => .resp 200 [7]) (fun _ => false)
      [⟨['t'], ['a'], ['b'], ['i']⟩, ⟨['u'], ['c'], ['d'], ['j']⟩] ['o'] []).aborted
      = true ∧
    (runBatch (fun _ _ _ => .resp 200 [7]) (fun _ => false)
      [⟨['t'], ['a'], ['b'], ['i']⟩, ⟨['u'], ['c'], ['d'], ['j']⟩] ['o'] []).outcomes
      = [] := by
  refine ⟨by decide, by decide⟩

/-- C7 amended: a persistence failure from exhausted network retries is
    reported for that single item only — the batch is not aborted by it,
    every item of an unaborted run gets exactly one outcome, and a Failed
    first item leaves the filesystem unchanged so the remaining items are
    processed exactly as without it; but a local file-write failure raises
    an uncaught OSError that aborts the entire batch, reporting no outcome
    and processing no further item. -/
theorem batch_network_failure_isolated (env : Nat → Nat → List Char → HttpResult)
    (writeOk : List Char → Bool) (tracks : List TrackMetadata)
    (outpath : List Char) (fs : FS) :
    ((runBatch env writeOk tracks outpath fs).aborted = false →
      (runBatch env writeOk tracks outpath fs).outcomes.length = tracks.length) ∧
    (∀ t ts, tracks = t :: ts →
      (download_track (env 0) writeOk t outpath 3 fs).1 = .done .Failed →
      (runBatch env writeOk tracks outpath fs).outcomes
        = .Failed :: (runBatch (fun k => env (k + 1)) writeOk ts outpath fs).outcomes ∧
      (runBatch env writeOk tracks outpath fs).aborted
        = (runBatch (fun k => env (k + 1)) writeOk ts outpath fs).aborted) ∧
    (∀ t ts, tracks = t :: ts →
      (download_track (env 0) writeOk t outpath 3 fs).1 = .oserror →
      (runBatch env writeOk tracks outpath fs).outcomes = [] ∧
      (runBatch env writeOk tracks outpath fs).aborted = true) := by
  refine ⟨runBatch_length_of_not_aborted env writeOk tracks outpath fs, ?_, ?_⟩
  · intro t ts htr hfail
    subst htr
    have e : runBatch env writeOk (t :: ts) outpath fs
        = match download_track (env 0) writeOk t outpath 3 fs with
          | (.done o, fs2, n) =>
            let rest := runBatch (fun k => env (k + 1)) writeOk ts outpath fs2
            ⟨o :: rest.outcomes, rest.aborted, rest.fs, n + rest.calls⟩
          | (.oserror, fs2, n) => ⟨[], true, fs2, n⟩ := rfl
    have hfs : (download_track (env 0) writeOk t outpath 3 fs).2.1 = fs :=
      download_track_go_failed_fs (env 0) writeOk _ _ _ 3 0 fs 0 hfail
    rcases hd : download_track (env 0) writeOk t outpath 3 fs with ⟨dr, fs2, n⟩
    rw [hd] at hfail hfs
    cases dr with
    | done o =>
      have ho : o = .Failed := by
        have := hfail
        simp only [DownloadResult.done.injEq] at this
        exact this
      have hf2 : fs2 = fs := hfs
      subst ho
      subst hf2
      rw [e, hd]
      exact ⟨rfl, rfl⟩
    | oserror => simp at hfail
  · intro t ts htr hos
    subst htr
    have e : runBatch env writeOk (t :: ts) outpath fs
        = match download_track (env 0) writeOk t outpath 3 fs with
          | (.done o, fs2, n) =>
            let rest := runBatch (fun k => env (k + 1)) writeOk ts outpath fs2
            ⟨o :: rest.outcomes, rest.aborted, rest.fs, n + rest.calls⟩
          | (.oserror, fs2, n) => ⟨[], true, fs2, n⟩ := rfl
    rcases hd : download_track (env 0) writeOk t outpath 3 fs with ⟨dr, fs2, n⟩
    rw [hd] at hos
    cases dr with
    | done o => simp at hos
    | oserror =>
      rw [e, hd]
      exact ⟨rfl, rfl⟩

/-- Witness for the amended C7: the first of two items exhausts its network
    retries and the second still gets its outcome from the unchanged
    filesystem. -/
theorem batch_network_failure_isolated_witness :
    (runBatch (fun _ _ _ => .err) (fun _ => true)
      [⟨['t'], ['a'], ['b'], ['i']⟩, ⟨['u'], ['c'], ['d'], ['j']⟩] ['o'] []).outcomes
      = .Failed :: (runBatch (fun _ _ _ => .err) (fun _ => true)
          [⟨['u'], ['c'], ['d'], ['j']⟩] ['o'] []).outcomes :=
  ((batch_network_failure_isolated (fun _ _ _ => .err) (fun _ => true) _ ['o'] []).2.1
    ⟨['t'], ['a'], ['b'], ['i']⟩ [⟨['u'], ['c'], ['d'], ['j']⟩] rfl (by decide)).1

/-! ## Delivery-endpoint failure handling -/

/-- C8 fails as stated: a delivery response with a non-200 status outside
    the raise_for_status range (here 204) makes persist_audio_file return
    False, which download_track reports as Skipped — not a network failure. -/
theorem nonsuccess_status_skipped_counterexample :
    (persist_audio_file (fun _ => .resp 204 []) (fun _ => true) ['t'] ['i'] ['o'] []).1
      = .ret false ∧
    (download_track (fun _ _ => .resp 204 []) (fun _ => true)
      ⟨['t'], ['a'], ['b'], ['i']⟩ ['o'] 3 []).1 = .done .Skipped ∧
    (download_track (fun _ _ => .resp 204 []) (fun _ => true)
      ⟨['t'], ['a'], ['b'], ['i']⟩ ['o'] 3 []).1 ≠ .done .Failed := by
  refine ⟨by decide, by decide, by decide⟩

/-- C8 amended: a transport error or a status in [400, 600) raises, so the
    attempt yields neither Written nor Skipped and writes nothing; but a
    non-200 status outside that range returns False with no write, which
    download_track reports as Skipped. -/
theorem persist_network_failure_behavior (delivery : List Char → HttpResult)
    (writeOk : List Char → Bool) (tname tid outpath : List Char) (fs : FS)
    (hex : fsExists fs (joinPath outpath (mp3Name (normalize_filename tname))) = false) :
    ((delivery tid = .err ∨ ∃ s b, delivery tid = .resp s b ∧ raisesForStatus s = true) →
      persist_audio_file delivery writeOk tname tid outpath fs = (.raised, fs, 1)) ∧
    (∀ s b, delivery tid = .resp s b → raisesForStatus s = false → s ≠ 200 →
      persist_audio_file delivery writeOk tname tid outpath fs = (.ret false, fs, 1)) := by
  constructor
  · intro h
    unfold persist_audio_file
    rcases h with h | ⟨s, b, h, hs⟩
    · simp [hex, h]
    · simp [hex, h, hs]
  · intro s b h hs h200
    unfold persist_audio_file
    simp [hex, h, hs, h200]

/-- Witness for the amended C8: a transport error raises. -/
theorem persist_network_failure_behavior_witness :
    persist_audio_file (fun _ => .err) (fun _ => true) ['t'] ['i'] ['o'] []
      = (.raised, [], 1) :=
  (persist_network_failure_behavior (fun _ => .err) (fun _ => true) ['t'] ['i'] ['o'] []
    (by decide)).1 (Or.inl rfl)

/-! ## Metadata retry vs not-found acknowledgement -/

/-- C9 fails as stated: a 200 response whose body says success=false is
    returned by fetch_track_metadata on the very first attempt — one service
    call, not three. -/
theorem notfound_body_not_retried_counterexample :
    fetch_track_metadata (fun _ => .resp 200 ⟨false, []⟩) 3
      = (some ⟨false, []⟩, 1) ∧
    (fetch_track_metadata (fun _ => .resp 200 ⟨false, []⟩) 3).2 ≠ 3 := by
  refine ⟨by decide, by decide⟩

/-- C9 amended: transport errors and HTTP error statuses (400-599) are
    retried identically until the 3-attempt budget is exhausted, but a
    non-raising response — including a success=false not-found
    acknowledgement — is returned on the first attempt without any retry;
    the caller then rejects it without further attempts. -/
theorem retry_uniform_transport_only (env : Nat → FetchResult) (body : TrackResponse) :
    ((∀ i, i < 3 → fetchAttemptFails (env i) = true) →
      fetch_track_metadata env 3 = (none, 3)) ∧
    (env 0 = .resp 200 body →
      fetch_track_metadata env 3 = (some body, 1) ∧
      (body.success = false →
        metadata_fetch_rejected (fetch_track_metadata env 3).1 = true)) := by
  constructor
  · intro h
    exact (retry_budget_three env (h 0 (by omega)) (h 1 (by omega))).2 (h 2 (by omega))
  · intro h0
    have hs : fetch_track_metadata env 3 = (some body, 1) :=
      fetch_track_go_success env 0 2 0 200 body h0 (by decide)
    refine ⟨hs, ?_⟩
    intro hsucc
    rw [hs]
    simp [metadata_fetch_rejected, hsucc]

/-- Witness for the amended C9: three transport errors exhaust the budget. -/
theorem retry_uniform_transport_only_witness :
    fetch_track_metadata (fun _ => .err) 3 = (none, 3) :=
  (retry_uniform_transport_only (fun _ => .err) ⟨true, []⟩).1 (by decide)

/-! ## Selection filter -/

/-- C4: a blank (empty or whitespace-only) selection returns the item list
    unchanged; otherwise the whitespace-separated tokens are parsed as
    integers, each is decremented by one, indices outside [0, len(items))
    are dropped, and the corresponding items are returned in exactly the
    order the indices were supplied, duplicates kept (selectionSpec). -/
theorem selection_filter_behavior {α : Type} (songs : List α) (raw : List Char) :
    ((pyStrip raw).isEmpty = true → select_tracks songs raw = .ok songs) ∧
    (∀ ns, (pyStrip raw).isEmpty = false → (pySplit raw).mapM pyInt = some ns →
      select_tracks songs raw = .ok (selectionSpec songs ns)) := by
  constructor
  · intro h
    simp [select_tracks, h]
  · intro ns hne hns
    simp only [select_tracks, hne, Bool.false_eq_true, if_false, hns]
    show Except.ok (((ns.map (fun n => n - 1)).filterMap
        (fun i =>
          if h : 0 ≤ i ∧ i < (songs.length : Int) then
            some (songs.get ⟨i.toNat, by omega⟩)
          else none)))
      = Except.ok (selectionSpec songs ns)
    unfold selectionSpec
    congr 1
    apply List.filterMap_congr
    intro i _
    by_cases h0 : 0 ≤ i
    · by_cases hlt : i < (songs.length : Int)
      · rw [dif_pos ⟨h0, hlt⟩, if_pos h0]
        exact (List.get?_eq_get (by omega)).symm
      · rw [dif_neg (fun hc => hlt hc.2), if_pos h0]
        exact (List.get?_eq_none.mpr (by omega)).symm
    · rw [dif_neg (fun hc => h0 hc.1), if_neg h0]

/-- Witness for C4: 5 items with raw input "0 2 9" — the 0 becomes index -1
    and is dropped, the 9 becomes index 8 and is dropped, the 2 selects the
    2nd item. -/
theorem selection_filter_behavior_witness :
    select_tracks [10, 20, 30, 40, 50] ['0', ' ', '2', ' ', '9']
      = .ok (selectionSpec [10, 20, 30, 40, 50] [0, 2, 9]) :=
  (selection_filter_behavior [10, 20, 30, 40, 50] ['0', ' ', '2', ' ', '9']).2
    [0, 2, 9] (by decide) (by decide)

/-- C10: a non-blank selection containing the non-integer token "a" makes
    int() raise an uncaught ValueError, so the album branch aborts before
    any download is attempted. -/
theorem invalid_token_aborts_before_download
    (env : Nat → Nat → List Char → HttpResult) (writeOk : List Char → Bool)
    (songs : List TrackMetadata) (album_name cwd : List Char) (fs : FS) :
    pyInt ['a'] = none ∧
    select_tracks songs ['1', ' ', 'a'] = .error () ∧
    album_download_phase env writeOk songs ['1', ' ', 'a'] album_name cwd fs
      = .error () := by
  have hmap : (pySplit ['1', ' ', 'a']).mapM pyInt = none := by decide
  have hne : (pyStrip ['1', ' ', 'a']).isEmpty = false := by decide
  have hsel : select_tracks songs ['1', ' ', 'a'] = .error () := by
    simp only [select_tracks, hne, Bool.false_eq_true, if_false, hmap]
  refine ⟨by decide, hsel, ?_⟩
  simp [album_download_phase, hsel]

end Yank
